import Mathlib

/-!
Verification development for `generate_map.py`, the single source file of the
bungalows-map repository.  The pure logic of the script — address parsing,
address-variant generation, cache-then-query coordinate resolution, the
radius filter, deduplication, the snapshot/new diff, and the writers'
observable outputs — is embedded as executable Lean definitions.  External
services (HTTP fetching, the Nominatim geocoder, the geodesic-distance
library, float formatting) are passed in as explicit oracle parameters, as
the spec declares them out of scope.  Numbers are modelled as rationals.
-/

/-! ## Basic Python string helpers -/

/-- Python truthiness-based `a or b` on strings: the empty string is falsy. -/
def pyOr (a b : String) : String := if a = ("") then b else a

/-- `List` version of "`p` is a prefix of `s`" used by the regex embeddings
and by the embedding of `str.split`. -/
def startsWithChars : List Char → List Char → Bool
  | [], _ => true
  | _ :: _, [] => false
  | p :: ps, c :: cs => p = c && startsWithChars ps cs

/-- One step of `re.sub(r"\s+", " ", s)`: collapse every maximal run of
whitespace characters into a single space. -/
def squeezeWs : List Char → List Char
  | [] => []
  | [c] => [if c.isWhitespace then ' ' else c]
  | c :: d :: rest =>
    if c.isWhitespace && d.isWhitespace then squeezeWs (d :: rest)
    else (if c.isWhitespace then ' ' else c) :: squeezeWs (d :: rest)

/-- Python `str.strip()`: drop leading and trailing whitespace. -/
def stripChars (l : List Char) : List Char :=
  ((l.dropWhile Char.isWhitespace).reverse.dropWhile Char.isWhitespace).reverse

/-- `norm` (generate_map.py line 95): `re.sub(r"\s+", " ", (s or "")).strip()`.
Our strings are never Python `None`, so the `or ""` guard is the identity. -/
def norm (s : String) : String := String.mk (stripChars (squeezeWs s.toList))

/-- Python `str.split` recursion, made structural on a fuel argument so the
kernel can evaluate it (each step consumes at least one character, so fuel
`s.length` suffices; the fuel-exhausted case is unreachable then). -/
def pySplitGo (sep : List Char) : Nat → List Char → List (List Char)
  | _, [] => [[]]
  | 0, s => [s]
  | fuel + 1, c :: rest =>
    if sep = [] then [c :: rest]
    else if startsWithChars sep (c :: rest) then
      [] :: pySplitGo sep fuel ((c :: rest).drop sep.length)
    else
      -- `pySplitGo` never returns an empty list, so the first branch is unreachable
      match pySplitGo sep fuel rest with
      | [] => [[c]]
      | seg :: segs => (c :: seg) :: segs

/-- Python `s.split(sep)` with a non-empty separator (the script only ever
splits on a non-empty postcode; Python raises on an empty separator, here
the whole string is returned unsplit). -/
def pySplit (sep s : List Char) : List (List Char) := pySplitGo sep s.length s

/-- The prefix of `s` strictly before the first occurrence of `sep`
(`s` itself when `sep` does not occur).  Independent characterisation of
`pySplit sep s |>.headD []`, used to state claim C8. -/
def prefixBeforeFirst (sep : List Char) : List Char → List Char
  | [] => []
  | c :: rest =>
    if startsWithChars sep (c :: rest) then []
    else c :: prefixBeforeFirst sep rest

/-! ## Regex embeddings

`POSTCODE_RE = re.compile(r"\b(\d{4})\s*([A-Z]{2})\b", re.IGNORECASE)`
(line 261).  Character classes follow `re` on the alphabet the script
handles: `\w` is letters/digits/underscore, `\d` digits, `\s` whitespace.
-/

def isWordChar (c : Char) : Bool := c.isAlphanum || c = '_'

/-- Try to match `POSTCODE_RE` at the current position (`prevC` is the
character just before the position, for the `\b` boundaries; the first
matched character is a digit, hence a word character, so the leading `\b`
holds iff `prevC` is absent or not a word character; symmetrically for the
trailing `\b` after the two letters). -/
def matchPostcodeAt (prevC : Option Char) (l : List Char) :
    Option (List Char × List Char) :=
  if (prevC.map isWordChar).getD false then none
  else
    match l with
    | d1 :: d2 :: d3 :: d4 :: rest =>
      if d1.isDigit && d2.isDigit && d3.isDigit && d4.isDigit then
        -- `\s*` is greedy and `\s` is disjoint from `[A-Z]`, so no backtracking
        match rest.dropWhile Char.isWhitespace with
        | a :: b :: rest2 =>
          if a.isAlpha && b.isAlpha then   -- [A-Z]{2} with IGNORECASE
            match rest2 with
            | [] => some ([d1, d2, d3, d4], [a, b])
            | n :: _ =>
              if isWordChar n then none else some ([d1, d2, d3, d4], [a, b])
          else none
        | _ => none
      else none
    | _ => none

/-- `POSTCODE_RE.search`: leftmost match, scanning start positions left to
right.  Returns the two capture groups (digits, letters). -/
def searchPostcode : Option Char → List Char → Option (List Char × List Char)
  | _, [] => none
  | prevC, c :: rest =>
    match matchPostcodeAt prevC (c :: rest) with
    | some r => some r
    | none => searchPostcode (some c) rest

/-- First (shadowed) `extract_postcode` (lines 263-267): it upper-cases the
two letters of the postcode.  At module load the later duplicate definition
(lines 299-301) rebinds the name, so no call site ever reaches this one. -/
def extract_postcode_v1 (text : String) : String :=
  match searchPostcode none text.toList with
  | some (d, l) => String.mk d ++ " " ++ String.mk (l.map Char.toUpper)
  | none => ""

/-- Effective `extract_postcode` (lines 299-301, the duplicate that shadows
the normalising one): `f"{m.group(1)} {m.group(2)}"` — the letters are kept
in their original case. -/
def extract_postcode (text : String) : String :=
  match searchPostcode none text.toList with
  | some (d, l) => String.mk d ++ " " ++ String.mk l
  | none => ""

/-! ### `extract_place_from_location_text` (lines 269-281)

Regex `\b\d{4}\s*[A-Z]{2}\s+([A-Za-zÀ-ÿ'`\- ]{2,})` (case sensitive), then
`re.split(r"\s+€|\s+\d+\s*m²|\s+k\.k\.|\s+v\.o\.n\.|\s+[A-Z]\s+", place)[0]`
and `norm`. -/

/-- The capture-group character class `[A-Za-zÀ-ÿ'`\- ]` (the range À-ÿ is
U+00C0–U+00FF as written in the source, `'` is U+0027, the backtick U+0060). -/
def isPlaceChar (c : Char) : Bool :=
  c.isAlpha || (0xC0 ≤ c.toNat && c.toNat ≤ 0xFF) || c = Char.ofNat 39 ||
    c = Char.ofNat 96 || c = '-' || c = ' '

/-- Backtracking over how much whitespace `\s+` consumes before the place
capture group: `cur` is the remainder after the currently tried consumption,
`wsRev` the whitespace characters (in release order, last first) that can
still be given back to the group, which contains the space character.  The
group `[...]{2,}` is greedy and final, so at each attempt it takes the
maximal run of class characters and succeeds iff that run has length ≥ 2. -/
def tryRelease : List Char → List Char → Option (List Char)
  | [], cur =>
    let g := cur.takeWhile isPlaceChar
    if 2 ≤ g.length then some g else none
  | c :: wsRev, cur =>
    let g := cur.takeWhile isPlaceChar
    if 2 ≤ g.length then some g else tryRelease wsRev (c :: cur)

/-- Try to match the place regex at the current position; returns the
capture group. -/
def matchPlaceAt (prevC : Option Char) (l : List Char) : Option (List Char) :=
  if (prevC.map isWordChar).getD false then none
  else
    match l with
    | d1 :: d2 :: d3 :: d4 :: rest =>
      if d1.isDigit && d2.isDigit && d3.isDigit && d4.isDigit then
        match rest.dropWhile Char.isWhitespace with
        | a :: b :: rest2 =>
          if a.isUpper && b.isUpper then    -- [A-Z]{2}, case sensitive here
            let run := rest2.takeWhile Char.isWhitespace
            if run.length = 0 then none     -- `\s+` needs at least one char
            else
              -- keep at least the first whitespace char consumed, release the rest
              tryRelease (run.drop 1).reverse (rest2.dropWhile Char.isWhitespace)
          else none
        | _ => none
      else none
    | _ => none

/-- `re.search` scan for the place regex: leftmost matching start position. -/
def searchPlace : Option Char → List Char → Option (List Char)
  | _, [] => none
  | prevC, c :: rest =>
    match matchPlaceAt prevC (c :: rest) with
    | some g => some g
    | none => searchPlace (some c) rest

/-- Does one of the alternatives of the split pattern
`\s+€|\s+\d+\s*m²|\s+k\.k\.|\s+v\.o\.n\.|\s+[A-Z]\s+` match starting at the
current position?  Every alternative starts with `\s+` followed by a
non-whitespace token, so the greedy whitespace run is deterministic. -/
def stopMatchAt (l : List Char) : Bool :=
  match l with
  | [] => false
  | c :: rest =>
    if c.isWhitespace then
      match rest.dropWhile Char.isWhitespace with
      | [] => false
      | x :: xs =>
        (x = '€')
        || (x.isDigit &&
              (match ((x :: xs).dropWhile Char.isDigit).dropWhile Char.isWhitespace with
               | m :: s :: _ => m = 'm' && s = '²'
               | _ => false))
        || startsWithChars [ 'k', '.', 'k', '.' ] (x :: xs)
        || startsWithChars [ 'v', '.', 'o', '.', 'n', '.' ] (x :: xs)
        || (x.isUpper && (match xs with
                          | y :: _ => y.isWhitespace
                          | [] => false))
    else false

/-- `re.split(...)[0]`: the prefix before the earliest position where some
alternative of the split pattern matches (the whole string if none does). -/
def splitStop : List Char → List Char
  | [] => []
  | c :: rest => if stopMatchAt (c :: rest) then [] else c :: splitStop rest

/-- `extract_place_from_location_text` (lines 269-281): take the text after
a postcode, cut it at price/area/agent noise, and normalise. -/
def extract_place_from_location_text (location_text : String) : String :=
  if location_text = ("") then ""
  else
    match searchPlace none location_text.toList with
    | none => ""
    | some g => norm (String.mk (splitStop g))

/-- `extract_place_from_funda_url` (lines 283-288): search
`funda\.nl/detail/koop/([^/]+)/` in the lower-cased URL and return the
captured path segment with dashes turned into spaces. -/
def fundaPlaceScan : List Char → Option (List Char)
  | [] => none
  | c :: rest =>
    let pat := ("funda.nl/detail/koop/").toList
    if startsWithChars pat (c :: rest) then
      let after := (c :: rest).drop pat.length
      let seg := after.takeWhile (fun x => !(x = '/'))
      -- `[^/]+` is greedy and must be followed by `/`; a shorter capture
      -- would end at a non-`/` character, so no backtracking can help,
      -- and `re.search` then continues from the next start position.
      match after.drop seg.length with
      | d :: _ => if seg.length ≥ 1 && d = '/' then some seg else fundaPlaceScan rest
      | [] => fundaPlaceScan rest
    else fundaPlaceScan rest

def extract_place_from_funda_url (url : String) : String :=
  match fundaPlaceScan (url.toList.map Char.toLower) with
  | none => ""
  | some seg => String.mk (seg.map (fun c => if c = '-' then ' ' else c))

/-- `extract_street_from_title` (lines 290-296): split the title on the
canonicalised postcode string returned by `extract_postcode` (which, at run
time, is the non-normalising duplicate) and normalise the part before it. -/
def extract_street_from_title (title : String) : String :=
  let pc := extract_postcode title
  if pc = ("") then ""
  else norm (String.mk ((pySplit pc.toList title.toList).headD []))

/-! ## Listing records and the address-variant generator -/

/-- `Row` (lines 66-78): one scraped listing.  Python `float | None` fields
are `Option ℚ`. -/
structure Row where
  scraped_at : String
  source : String
  title : String
  price_text : String
  location_text : String
  since_text : String
  url : String
  municipality : String
  lat : Option ℚ
  lon : Option ℚ
  distance_km : Option ℚ
deriving DecidableEq, Repr

/-- The `out, seen` loop at the end of `guess_address_variants`
(lines 332-338): normalise each variant, drop empties and duplicates,
keeping first occurrences in order. -/
def dedupeNormGo (seen : List String) : List String → List String
  | [] => []
  | v :: rest =>
    let v' := norm v
    if v' ≠ ("") && !(seen.contains v') then v' :: dedupeNormGo (v' :: seen) rest
    else dedupeNormGo seen rest

def dedupeNorm (vs : List String) : List String := dedupeNormGo [] vs

/-- `guess_address_variants` (lines 304-338): ordered candidate address
strings, most specific first; `if street and pc and place` is Python string
truthiness, i.e. non-emptiness. -/
def guess_address_variants (row : Row) : List String :=
  let pc := pyOr (extract_postcode row.location_text) (extract_postcode row.title)
  let place := pyOr (extract_place_from_location_text row.location_text)
    (extract_place_from_funda_url row.url)
  let street := extract_street_from_title row.title
  let variants :=
    (if street ≠ ("") && pc ≠ ("") && place ≠ ("") then
      [street ++ ", " ++ pc ++ " " ++ place ++ ", Nederland"] else [])
    ++ (if pc ≠ ("") && place ≠ ("") then [pc ++ " " ++ place ++ ", Nederland"] else [])
    ++ (if row.title ≠ ("") then [row.title ++ ", Nederland"] else [])
    ++ (if place ≠ ("") then [place ++ ", Nederland"] else [])
    ++ [("Limburg, Nederland")]
  dedupeNorm variants

/-! ## Deduplication by URL

Both `scrape_search_page` (`results: dict[str, Row]` with
`results.setdefault(url, Row(...))`, lines 198/246-256) and `run`'s
cross-page pass (`uniq.setdefault(r.url, r)`, lines 505-509) accumulate
rows into an insertion-ordered dict keyed by URL via `setdefault` and then
take `.values()`.  The dict is an association list in insertion order. -/

/-- Python `dict.setdefault`: insert only when the key is absent. -/
def setdefault (d : List (String × Row)) (k : String) (v : Row) :
    List (String × Row) :=
  if (List.lookup k d).isSome then d else d ++ [(k, v)]

/-- The shared dedup pattern: fold `setdefault` over the rows, then
`.values()` in insertion order. -/
def dedupByUrl (rows : List Row) : List Row :=
  (rows.foldl (fun d r => setdefault d r.url r) []).map Prod.snd

/-- Recursive unfolding of the `setdefault` fold (proof helper). -/
def dedupeGo (d : List (String × Row)) : List Row → List Row
  | [] => []
  | r :: rest =>
    if (List.lookup r.url d).isSome then dedupeGo d rest
    else r :: dedupeGo (d ++ [(r.url, r)]) rest

/-! ## CSV snapshot, previous-URL loading, new-rows diff -/

/-- `COLUMNS` (lines 58-61). -/
def COLUMNS : List String :=
  [("scraped_at"), ("source"), ("title"), ("price_text"), ("location_text"),
   ("since_text"), ("url"), ("municipality"), ("lat"), ("lon"), ("distance_km")]

/-- One CSV cell for an optional float field: Python's `csv` module writes
`None` as the empty string; float formatting (`str`) is the abstract
`showQ`. -/
def optCell (showQ : ℚ → String) : Option ℚ → String
  | none => ""
  | some q => showQ q

/-- The cells `[d.get(c, "") for c in COLUMNS]` of one row (line 135). -/
def rowCells (showQ : ℚ → String) (r : Row) : List String :=
  [r.scraped_at, r.source, r.title, r.price_text, r.location_text,
   r.since_text, r.url, r.municipality, optCell showQ r.lat,
   optCell showQ r.lon, optCell showQ r.distance_km]

/-- `write_csv` (lines 129-135) modelled by the file content it produces:
the file is opened in mode "w" (overwriting), one header row of `COLUMNS`
is written, then one row of cells per record. -/
def write_csv (showQ : ℚ → String) (rows : List Row) : List (List String) :=
  COLUMNS :: rows.map (rowCells showQ)

/-- `load_prev_urls` (lines 138-144).  The CSV parse is modelled by its
result: the sequence of url-column values of the previous snapshot file;
a missing file (`FileNotFoundError`) is `none` and yields the empty set.
The Python set comprehension keeps `row["url"].strip()` for rows whose raw
url value starts with "http"; the set is modelled by this list up to
membership. -/
def load_prev_urls : Option (List String) → List String
  | none => []
  | some urlCol =>
    (urlCol.filter (fun u => startsWithChars (("http")).toList u.toList)).map
      (fun u => String.mk (stripChars u.toList))

/-- `new_rows = [r for r in enriched_rows if r.url not in prev_urls]`
(line 529). -/
def newRows (prev_urls : List String) (enriched_rows : List Row) : List Row :=
  enriched_rows.filter (fun r => decide (r.url ∉ prev_urls))

/-! ## Map writer

`write_map` (lines 443-472) is modelled by its observable effect: either no
file is written (and the warning is printed), or a map document whose data
is the initial centre plus the plotted rows is saved.  The folium document
construction itself is an external library, declared out of scope by the
spec. -/

def OUT_MAP_HTML : String := "bungalows_map.html"

/-- Result: the optional written map data (centre latitude/longitude and
the rows plotted as markers) and the log lines printed. -/
def write_map (rows : List Row) :
    Option ((ℚ × ℚ) × List Row) × List String :=
  let rows2 := rows.filter (fun r => r.lat.isSome && r.lon.isSome)
  if rows2.length = 0 then
    (none, [("[WARN] Geen punten om te plotten.")])
  else
    -- the inner `if r.lat is not None` filters are redundant after rows2
    let avg_lat :=
      ((rows2.filter (fun r => r.lat.isSome)).map (fun r => r.lat.getD 0)).sum /
        (rows2.length : ℚ)
    let avg_lon :=
      ((rows2.filter (fun r => r.lon.isSome)).map (fun r => r.lon.getD 0)).sum /
        (rows2.length : ℚ)
    (some ((avg_lat, avg_lon), rows2),
     [("[INFO] Kaart geschreven: ") ++ OUT_MAP_HTML])

/-! ## Geo resolver (lines 341-438)

The geocoding service, the reverse-geocoding service, the geodesic distance
and the `f"{lat:.6f},{lon:.6f}"` float formatting are external; they enter
as oracle fields of `EnrichEnv`.  The two JSON cache files are the
`EnrichState`; `load_json_cache` at the start is the initial state, each
`save_json_cache` persists exactly the cache value threaded through the
state (so the returned state is the persisted one). -/

structure Coord where
  lat : ℚ
  lon : ℚ
deriving DecidableEq, Repr

/-- `geo_cache`: a Python dict `key -> {"lat": .., "lon": ..}`, modelled as
an association list where the most recent binding is first. -/
abbrev GeoCache := List (String × Coord)

def cacheFind (cache : GeoCache) (k : String) : Option Coord :=
  List.lookup k cache

def cacheInsert (cache : GeoCache) (k : String) (v : Coord) : GeoCache :=
  (k, v) :: cache

/-- The cache-on-address loop (lines 372-375): first cached variant wins. -/
def findCachedVariant (cache : GeoCache) : List String → Option Coord
  | [] => none
  | a :: rest =>
    match cacheFind cache a with
    | some c => some c
    | none => findCachedVariant cache rest

/-- The fresh-geocode loop (lines 379-384): query the service on each
variant in order, stop at the first non-empty result.  Also returns the
list of geocoding network calls issued, in order. -/
def tryGeocode (g : String → Option Coord) :
    List String → Option (Coord × String) × List String
  | [] => (none, [])
  | a :: rest =>
    match g a with
    | some c => (some (c, a), [a])
    | none =>
      match tryGeocode g rest with
      | (res, calls) => (res, a :: calls)

/-- Coordinate resolution for one row (lines 365-397): cache on URL, then
cache on each address variant, then geocode each variant; on a fresh
success the coordinate is stored under the URL and under the variant that
succeeded (in that order) and the cache is persisted.  Returns the
resolved coordinate with the updated cache (`none` if the record is
dropped) and the geocoding calls issued. -/
def resolveLatLon (g : String → Option Coord) (cache : GeoCache) (r : Row) :
    Option (Coord × GeoCache) × List String :=
  match cacheFind cache r.url with
  | some c => (some (c, cache), [])
  | none =>
    match findCachedVariant cache (guess_address_variants r) with
    | some c => (some (c, cache), [])
    | none =>
      match tryGeocode g (guess_address_variants r) with
      | (none, calls) => (none, calls)
      | (some (c, addr), calls) =>
        (some (c, cacheInsert (cacheInsert cache r.url c) addr c), calls)

/-- Follows the spec's words for claim C2: "check GeoCache under the
record's URL; if absent, check GeoCache under each address variant in
order; if still absent, query the geocoding service with each address
variant in order and accept the first non-empty result.  If no variant
resolves, the record is dropped."  Stated with `List.find?` so that "first
… in order" is independent of the implementation's recursion. -/
def resolveCoordSpec (g : String → Option Coord) (cache : GeoCache) (r : Row) :
    Option Coord :=
  match cacheFind cache r.url with
  | some c => some c
  | none =>
    match (guess_address_variants r).find? (fun a => (cacheFind cache a).isSome) with
    | some a => cacheFind cache a
    | none =>
      match (guess_address_variants r).find? (fun a => (g a).isSome) with
      | some a => g a
      | none => none

/-! ### Rounding

`round(dist_km, 1)` (line 434): Python rounds to the nearest multiple of
1/10, ties to even (banker's rounding), modelled exactly on rationals. -/

/-- Python `round(q)` on an exact rational: nearest integer, ties to the
even neighbour. -/
def bankersRound (q : ℚ) : ℤ :=
  if q - ⌊q⌋ = 1 / 2 then (if 2 ∣ ⌊q⌋ then ⌊q⌋ else ⌊q⌋ + 1)
  else round q

/-- Python `round(q, 1)`. -/
def pyRound1 (q : ℚ) : ℚ := (bankersRound (10 * q) : ℚ) / 10

/-! ### Enrichment -/

/-- `RADIUS_KM = 100.0` (line 48): the float literal denotes exactly 100. -/
def RADIUS_KM : ℚ := 100

def CENTER_NAME : String := "Valkenburg aan de Geul, Nederland"

def CENTER_FALLBACK_LATLON : Coord := ⟨50.8650, 5.8320⟩

/-- `get_center_latlon` (lines 341-345). -/
def get_center_latlon (g : String → Option Coord) : Coord :=
  match g CENTER_NAME with
  | some c => c
  | none => CENTER_FALLBACK_LATLON

/-- External oracles of `geocode_and_enrich_rows`: the (rate-limited)
geocoder, the reverse geocoder returning the `address` dict of the result
(`none` on exception or empty result), the geodesic distance in km, and
the `f"{lat:.6f},{lon:.6f}"` reverse-cache key formatting. -/
structure EnrichEnv where
  geocode : String → Option Coord
  reverse : Coord → Option (List (String × String))
  dist : Coord → Coord → ℚ
  revKey : Coord → String

/-- The two on-disk caches threaded through the run. -/
structure EnrichState where
  geoCache : GeoCache
  revCache : List (String × String)
deriving DecidableEq, Repr

/-- Python `d.get(k) or …` chain member: absent keys and empty values are
both falsy, so `get` with default `""` composed with `pyOr` is exact. -/
def dictGet (d : List (String × String)) (k : String) : String :=
  (List.lookup k d).getD ("")

/-- Lines 418-425: municipality from the reverse-geocode address dict. -/
def municipalityOf (addr : List (String × String)) : String :=
  pyOr (dictGet addr ("municipality"))
    (pyOr (dictGet addr ("city"))
      (pyOr (dictGet addr ("town"))
        (pyOr (dictGet addr ("village")) (dictGet addr ("county")))))

/-- `replace(r, municipality=…, lat=…, lon=…, distance_km=round(dist_km, 1))`
(lines 429-435). -/
def enrichedRow (r : Row) (c : Coord) (m : String) (dist : ℚ) : Row :=
  { r with municipality := m, lat := some c.lat, lon := some c.lon,
           distance_km := some (pyRound1 dist) }

/-- One iteration of the loop of `geocode_and_enrich_rows` (lines 364-435):
resolve the coordinate, apply the `dist_km > RADIUS_KM` filter, resolve the
municipality through the reverse cache, and produce the enriched row.
Returns the updated caches, the appended row if any, and the geocoding
calls issued. -/
def enrichOne (env : EnrichEnv) (center : Coord) (st : EnrichState)
    (r : Row) : EnrichState × Option Row × List String :=
  match resolveLatLon env.geocode st.geoCache r with
  | (none, calls) => (st, none, calls)      -- "[GEO FAIL]" printed, row dropped
  | (some (c, gc'), calls) =>
    let dist := env.dist center c
    if RADIUS_KM < dist then (⟨gc', st.revCache⟩, none, calls)
    else
      let key := env.revKey c
      match List.lookup key st.revCache with
      | some m => (⟨gc', st.revCache⟩, some (enrichedRow r c m dist), calls)
      | none =>
        match env.reverse c with
        | some addr =>
          (⟨gc', (key, municipalityOf addr) :: st.revCache⟩,
           some (enrichedRow r c (municipalityOf addr) dist), calls)
        | none => (⟨gc', st.revCache⟩, some (enrichedRow r c ("") dist), calls)

/-- The whole loop over `rows`. -/
def enrichList (env : EnrichEnv) (center : Coord) (st : EnrichState) :
    List Row → EnrichState × List Row × List String
  | [] => (st, [], [])
  | r :: rest =>
    match enrichOne env center st r with
    | (st1, orow, calls) =>
      match enrichList env center st1 rest with
      | (st2, out, calls2) => (st2, orow.toList ++ out, calls ++ calls2)

/-- `geocode_and_enrich_rows` (lines 348-438): load caches (the `st`
parameter), geocode the centre once, then enrich every row in order. -/
def geocode_and_enrich_rows (env : EnrichEnv) (st : EnrichState)
    (rows : List Row) : EnrichState × List Row × List String :=
  enrichList env (get_center_latlon env.geocode) st rows

/-! ## Helper lemmas -/

/-- `pySplitGo` always returns at least one segment (as Python's
`str.split` does). -/
theorem pySplitGo_ne_nil (sep : List Char) :
    ∀ (fuel : Nat) (s : List Char), pySplitGo sep fuel s ≠ [] := by
  intro fuel s
  match fuel, s with
  | _, [] => simp [pySplitGo]
  | 0, c :: rest => simp [pySplitGo]
  | fuel + 1, c :: rest =>
    rw [pySplitGo]
    split
    · simp
    · split
      · simp
      · split <;> simp

/-- With enough fuel, the first segment of a Python split is exactly the
prefix before the first occurrence of the separator. -/
theorem pySplitGo_headD (sep : List Char) (hs : sep ≠ []) :
    ∀ (fuel : Nat) (s : List Char), s.length ≤ fuel →
      (pySplitGo sep fuel s).headD [] = prefixBeforeFirst sep s := by
  intro fuel
  induction fuel with
  | zero =>
    intro s hlen
    have hnil : s = [] := List.length_eq_zero.mp (Nat.le_zero.mp hlen)
    subst hnil
    simp [pySplitGo, prefixBeforeFirst]
  | succ n ih =>
    intro s hlen
    cases s with
    | nil => simp [pySplitGo, prefixBeforeFirst]
    | cons c rest =>
      rw [pySplitGo, prefixBeforeFirst, if_neg hs]
      by_cases hm : startsWithChars sep (c :: rest) = true
      · simp [hm]
      · have hlen2 : rest.length ≤ n := by
          simpa using Nat.le_of_succ_le_succ hlen
        rcases hsp : pySplitGo sep n rest with _ | ⟨seg, segs⟩
        · exact absurd hsp (pySplitGo_ne_nil sep n rest)
        · have ihh := ih rest hlen2
          rw [hsp] at ihh
          simp only [List.headD_cons] at ihh
          simp [hm, hsp, ihh]

/-- The first segment of `pySplit` is the prefix before the first
occurrence of the separator. -/
theorem pySplit_headD (sep : List Char) (hs : sep ≠ []) (s : List Char) :
    (pySplit sep s).headD [] = prefixBeforeFirst sep s :=
  pySplitGo_headD sep hs s.length s (Nat.le_refl _)

/-! ## Claims -/

/-- Fixture: the listing record of claim C3 (only `title` and
`location_text` are given by the claim; the other fields are empty). -/
def rowC3 : Row :=
  ⟨"", "", "Rendierlaan 6 5704 DC Helmond", "",
   "5704 DC Helmond € 450.000 k.k.", "", "", "", none, none, none⟩

/-- C3: for the record with title "Rendierlaan 6 5704 DC Helmond" and
location_text "5704 DC Helmond € 450.000 k.k.", the first element of
`guess_address_variants` is exactly
"Rendierlaan 6, 5704 DC Helmond, Nederland". -/
theorem first_variant_rendierlaan :
    (guess_address_variants rowC3).head? =
      some ("Rendierlaan 6, 5704 DC Helmond, Nederland") := by decide

/-- C7: the claim says the postcode extraction used by the address-variant
generator upper-cases the two letters.  The second, shadowing definition of
`extract_postcode` (lines 299-301) — the one `guess_address_variants` and
`extract_street_from_title` actually call — does not: on an input whose
postcode letters are lower-case it returns them unchanged, while the
shadowed first definition (lines 263-267) returns them upper-cased.  The
spec's own design note marks this as an unintentional regression, so the
claim is right and the code is wrong. -/
theorem extract_postcode_case_bug :
    extract_postcode ("Dorpsstraat 1 1234 ab Amsterdam") = ("1234 ab") ∧
    extract_postcode_v1 ("Dorpsstraat 1 1234 ab Amsterdam") = ("1234 AB") := by
  decide

/-- C8 counterexample: the title "Rendierlaan 6 5704DC Helmond" contains a
postal-code occurrence ("5704DC", matched by `POSTCODE_RE` with an empty
`\s*`), whose canonicalised form is "5704 DC"; the text of the title
preceding the occurrence is "Rendierlaan 6".  But because the
canonicalised string "5704 DC" does not occur verbatim in the title,
`title.split(pc)` is a no-op and the function returns the whole normalised
title, not the preceding text. -/
theorem street_extraction_counterexample :
    extract_postcode ("Rendierlaan 6 5704DC Helmond") = ("5704 DC") ∧
    extract_street_from_title ("Rendierlaan 6 5704DC Helmond") =
      ("Rendierlaan 6 5704DC Helmond") ∧
    ("Rendierlaan 6 5704DC Helmond" : String) ≠ ("Rendierlaan 6") := by decide

/-- C8 amended: when the title contains no postcode the result is the empty
string; otherwise the result is the normalised prefix of the title before
the first occurrence of the *canonicalised* postcode string (4 digits, one
space, the letters as matched) — which is the whole normalised title
whenever that canonical string does not occur verbatim in the title. -/
theorem street_extraction_amended (title : String) :
    (extract_postcode title = ("") → extract_street_from_title title = ("")) ∧
    (extract_postcode title ≠ ("") →
      extract_street_from_title title =
        norm (String.mk (prefixBeforeFirst (extract_postcode title).toList
          title.toList))) := by
  constructor
  · intro h; simp [extract_street_from_title, h]
  · intro h
    have hne : (extract_postcode title).toList ≠ [] := by
      intro hd
      apply h
      cases hpc : extract_postcode title with
      | mk data =>
        rw [hpc] at hd
        have hdata : data = [] := hd
        rw [hdata]
    simp only [extract_street_from_title]
    rw [if_neg h, pySplit_headD _ hne]

theorem street_extraction_amended_witness :
    extract_street_from_title ("Rendierlaan 6 5704 DC Helmond") =
      norm (String.mk (prefixBeforeFirst
        (extract_postcode ("Rendierlaan 6 5704 DC Helmond")).toList
        ("Rendierlaan 6 5704 DC Helmond").toList)) ∧
    extract_street_from_title ("zonder postcode") = ("") :=
  ⟨(street_extraction_amended ("Rendierlaan 6 5704 DC Helmond")).2 (by decide),
   (street_extraction_amended ("zonder postcode")).1 (by decide)⟩

/-- C9: if no input record has both `lat` and `lon` non-null (in particular
on the empty list), `write_map` writes nothing and only emits the warning
line; being a total function of its input, it raises no error. -/
theorem write_map_no_points_no_write (rows : List Row)
    (h : ∀ r ∈ rows, ¬(r.lat.isSome = true ∧ r.lon.isSome = true)) :
    write_map rows = (none, [("[WARN] Geen punten om te plotten.")]) := by
  have hf : rows.filter (fun r => r.lat.isSome && r.lon.isSome) = [] := by
    rw [List.filter_eq_nil_iff]
    intro a ha hcontra
    exact h a ha (by simpa [Bool.and_eq_true] using hcontra)
  simp [write_map, hf]

/-- Fixture: a record with no coordinates. -/
def rowNoGeo : Row := ⟨"", "", "t", "", "", "", "u", "", none, none, none⟩

theorem write_map_no_points_no_write_witness :
    write_map [rowNoGeo] = (none, [("[WARN] Geen punten om te plotten.")]) :=
  write_map_no_points_no_write [rowNoGeo] (by decide)

/-- C10: `write_csv` on an empty record list still produces exactly the
fixed 11-column header row and no data rows (the file is opened in "w"
mode, so the previous snapshot is overwritten by this header-only
content), while `write_map` on the same empty list writes nothing. -/
theorem empty_run_writes_header_only_csv (showQ : ℚ → String) :
    write_csv showQ [] = [COLUMNS] ∧ COLUMNS.length = 11 ∧
      (write_map []).1 = none :=
  ⟨rfl, by decide, rfl⟩

/-! ### C6: deduplication -/

theorem lookup_append {α β : Type} [BEq α] (l1 l2 : List (α × β)) (k : α) :
    List.lookup k (l1 ++ l2) =
      (List.lookup k l1).orElse (fun _ => List.lookup k l2) := by
  induction l1 with
  | nil => simp [List.lookup, Option.orElse]
  | cons p rest ih =>
    rcases p with ⟨a, b⟩
    rw [List.cons_append]
    by_cases h : (k == a) = true
    · simp [List.lookup_cons, h, Option.orElse]
    · have h' : (k == a) = false := by simpa using h
      simp [List.lookup_cons, h', ih]

/-- Unfolding the `setdefault` fold into its recursive form. -/
theorem foldl_setdefault_eq (rows : List Row) :
    ∀ d : List (String × Row),
      (rows.foldl (fun d r => setdefault d r.url r) d).map Prod.snd =
        d.map Prod.snd ++ dedupeGo d rows := by
  induction rows with
  | nil => intro d; simp [dedupeGo]
  | cons r rest ih =>
    intro d
    by_cases h : (List.lookup r.url d).isSome
    · rw [List.foldl_cons]
      have hsd : setdefault d r.url r = d := by simp [setdefault, h]
      rw [hsd, ih d, dedupeGo, if_pos h]
    · rw [List.foldl_cons]
      have hsd : setdefault d r.url r = d ++ [(r.url, r)] := by simp [setdefault, h]
      rw [hsd, ih (d ++ [(r.url, r)]), dedupeGo, if_neg h]
      simp

theorem dedupByUrl_eq (rows : List Row) : dedupByUrl rows = dedupeGo [] rows := by
  simpa [dedupByUrl] using foldl_setdefault_eq rows []

/-- In the dedup output, the record found for a URL is the first input
record carrying that URL (provided the URL is not already a key of the
accumulator). -/
theorem dedupeGo_find? (u : String) : ∀ (rows : List Row) (d : List (String × Row)),
    List.find? (fun x => x.url == u) (dedupeGo d rows) =
      if (List.lookup u d).isSome then none
      else List.find? (fun x => x.url == u) rows := by
  intro rows
  induction rows with
  | nil => intro d; by_cases h : (List.lookup u d).isSome <;> simp [dedupeGo, h]
  | cons r rest ih =>
    intro d
    by_cases hd : (List.lookup r.url d).isSome
    · rw [dedupeGo, if_pos hd, ih d]
      by_cases hu : (List.lookup u d).isSome
      · rw [if_pos hu, if_pos hu]
      · have hne : ¬(r.url == u) = true := by
          intro he
          exact hu ((eq_of_beq he) ▸ hd)
        rw [if_neg hu, if_neg hu,
            @List.find?_cons_of_neg Row (fun x => x.url == u) r rest hne]
    · rw [dedupeGo, if_neg hd]
      by_cases hru : r.url = u
      · subst hru
        rw [if_neg hd,
            @List.find?_cons_of_pos Row (fun x => x.url == r.url) r
              (dedupeGo (d ++ [(r.url, r)]) rest) (by simp),
            @List.find?_cons_of_pos Row (fun x => x.url == r.url) r rest (by simp)]
      · have hne : ¬(r.url == u) = true := by simpa using hru
        have hne2 : (u == r.url) = false := by
          simp only [beq_eq_false_iff_ne, ne_eq]
          exact fun he => hru he.symm
        have hsingle : List.lookup u [(r.url, r)] = none := by
          simp [List.lookup_cons, hne2, List.lookup]
        rw [@List.find?_cons_of_neg Row (fun x => x.url == u) r
              (dedupeGo (d ++ [(r.url, r)]) rest) hne,
            ih (d ++ [(r.url, r)]), lookup_append,
            @List.find?_cons_of_neg Row (fun x => x.url == u) r rest hne]
        simp only [hsingle]
        cases List.lookup u d <;> simp [Option.orElse]

/-- Each URL present in the input survives with multiplicity exactly one. -/
theorem dedupeGo_countP (u : String) : ∀ (rows : List Row) (d : List (String × Row)),
    List.countP (fun x => x.url == u) (dedupeGo d rows) =
      if (List.lookup u d).isSome then 0
      else (if rows.any (fun x => x.url == u) then 1 else 0) := by
  intro rows
  induction rows with
  | nil => intro d; by_cases h : (List.lookup u d).isSome <;> simp [dedupeGo, h]
  | cons r rest ih =>
    intro d
    by_cases hd : (List.lookup r.url d).isSome
    · rw [dedupeGo, if_pos hd, ih d]
      by_cases hu : (List.lookup u d).isSome
      · rw [if_pos hu, if_pos hu]
      · have hne : ¬(r.url == u) = true := by
          intro he
          exact hu ((eq_of_beq he) ▸ hd)
        rw [if_neg hu, if_neg hu]
        simp [List.any_cons, hne]
    · rw [dedupeGo, if_neg hd, List.countP_cons, ih (d ++ [(r.url, r)]),
          lookup_append]
      by_cases hru : r.url = u
      · subst hru
        have hsingle : List.lookup r.url [(r.url, r)] = some r := by
          simp [List.lookup_cons]
        simp only [hsingle]
        have horelse : (List.lookup r.url d).orElse (fun _ => some r) = some r := by
          cases hl : List.lookup r.url d
          · simp [Option.orElse]
          · exact absurd (by simp [hl]) hd
        rw [horelse, if_neg hd]
        simp
      · have hne : ¬(r.url == u) = true := by simpa using hru
        have hne2 : (u == r.url) = false := by
          simp only [beq_eq_false_iff_ne, ne_eq]
          exact fun he => hru he.symm
        have hsingle : List.lookup u [(r.url, r)] = none := by
          simp [List.lookup_cons, hne2, List.lookup]
        simp only [hsingle]
        have horelse : (List.lookup u d).orElse (fun _ => none) = List.lookup u d := by
          cases List.lookup u d <;> simp [Option.orElse]
        rw [horelse]
        by_cases hu : (List.lookup u d).isSome
        · rw [if_pos hu, if_pos hu]; simp [hne]
        · rw [if_neg hu, if_neg hu]
          simp [List.any_cons, hne]

/-- C6 amended: two listings sharing a URL collapse to exactly one record,
and the surviving record is the FIRST-seen one — both during extraction
(`results.setdefault` in `scrape_search_page`) and during cross-page
deduplication (`uniq.setdefault` in `run`), which use the same
insertion-ordered-dict `setdefault` pattern modelled by `dedupByUrl`. -/
theorem dedup_url_first_seen_wins (rows : List Row) (u : String) :
    (List.countP (fun x => x.url == u) (dedupByUrl rows) =
       if rows.any (fun x => x.url == u) then 1 else 0) ∧
    List.find? (fun x => x.url == u) (dedupByUrl rows) =
      List.find? (fun x => x.url == u) rows := by
  rw [dedupByUrl_eq]
  constructor
  · simpa using dedupeGo_countP u rows []
  · simpa using dedupeGo_find? u rows []

def cexRowA : Row := ⟨"", "", "A", "", "", "", "https://x", "", none, none, none⟩

def cexRowB : Row := ⟨"", "", "B", "", "", "", "https://x", "", none, none, none⟩

/-- C6 counterexample: on a URL collision the FIRST-seen record wins, not
the last-seen one as the claim states for the extraction phase: feeding
two distinct records with the same URL through the `setdefault`
deduplication keeps the first and discards the second. -/
theorem dedup_url_last_seen_counterexample :
    cexRowA.url = cexRowB.url ∧ cexRowA ≠ cexRowB ∧
    dedupByUrl [cexRowA, cexRowB] = [cexRowA] ∧
    dedupByUrl [cexRowA, cexRowB] ≠ [cexRowB] := by decide

/-! ### C2/C4: coordinate-resolution order and cache behaviour -/

/-- The cache-on-variants loop returns the value of the first variant whose
key is cached. -/
theorem findCachedVariant_eq (cache : GeoCache) : ∀ vs : List String,
    findCachedVariant cache vs =
      match vs.find? (fun a => (cacheFind cache a).isSome) with
      | some a => cacheFind cache a
      | none => none := by
  intro vs
  induction vs with
  | nil => simp [findCachedVariant]
  | cons a rest ih =>
    cases hc : cacheFind cache a with
    | some c =>
      have hp : ((fun a => (cacheFind cache a).isSome) a) = true := by simp [hc]
      rw [findCachedVariant, hc,
          @List.find?_cons_of_pos String (fun a => (cacheFind cache a).isSome) a rest hp]
      simp [hc]
    | none =>
      have hp : ¬((fun a => (cacheFind cache a).isSome) a) = true := by simp [hc]
      rw [findCachedVariant, hc,
          @List.find?_cons_of_neg String (fun a => (cacheFind cache a).isSome) a rest hp, ih]

/-- The geocode loop accepts the first variant the service resolves. -/
theorem tryGeocode_fst (g : String → Option Coord) : ∀ vs : List String,
    (tryGeocode g vs).1 =
      match vs.find? (fun a => (g a).isSome) with
      | some a => (g a).map (fun c => (c, a))
      | none => none := by
  intro vs
  induction vs with
  | nil => simp [tryGeocode]
  | cons a rest ih =>
    cases hg : g a with
    | some c =>
      have hp : ((fun a => (g a).isSome) a) = true := by simp [hg]
      rw [tryGeocode, hg,
          @List.find?_cons_of_pos String (fun a => (g a).isSome) a rest hp]
      simp [hg]
    | none =>
      have hp : ¬((fun a => (g a).isSome) a) = true := by simp [hg]
      rw [tryGeocode, hg,
          @List.find?_cons_of_neg String (fun a => (g a).isSome) a rest hp]
      rcases htg : tryGeocode g rest with ⟨res, calls⟩
      rw [htg] at ih
      simpa using ih

/-- The geocode loop queries the variants in order, one call per variant,
stopping right after the first success. -/
theorem tryGeocode_snd (g : String → Option Coord) : ∀ vs : List String,
    (tryGeocode g vs).2 =
      vs.takeWhile (fun a => !(g a).isSome) ++
        ((vs.find? (fun a => (g a).isSome)).toList) := by
  intro vs
  induction vs with
  | nil => simp [tryGeocode]
  | cons a rest ih =>
    cases hg : g a with
    | some c =>
      have hp : ((fun a => (g a).isSome) a) = true := by simp [hg]
      rw [tryGeocode, hg,
          @List.find?_cons_of_pos String (fun a => (g a).isSome) a rest hp]
      simp [List.takeWhile_cons, hg]
    | none =>
      have hp : ¬((fun a => (g a).isSome) a) = true := by simp [hg]
      rw [tryGeocode, hg,
          @List.find?_cons_of_neg String (fun a => (g a).isSome) a rest hp]
      rcases htg : tryGeocode g rest with ⟨res, calls⟩
      rw [htg] at ih
      simp only at ih
      simp [List.takeWhile_cons, hg, ih]

/-- Refinement: the coordinate produced by the implementation's resolution
is exactly the spec-side cache-then-query lookup. -/
theorem resolveLatLon_fst (g : String → Option Coord) (cache : GeoCache)
    (r : Row) :
    (resolveLatLon g cache r).1.map Prod.fst = resolveCoordSpec g cache r := by
  rw [resolveLatLon, resolveCoordSpec]
  cases hurl : cacheFind cache r.url with
  | some c => simp
  | none =>
    rw [findCachedVariant_eq]
    cases hv : (guess_address_variants r).find?
        (fun a => (cacheFind cache a).isSome) with
    | some a =>
      have ha : (cacheFind cache a).isSome = true := by
        simpa using List.find?_some hv
      obtain ⟨c, hc⟩ := Option.isSome_iff_exists.mp ha
      simp [hc]
    | none =>
      rcases htg : tryGeocode g (guess_address_variants r) with ⟨res, calls⟩
      have hfst := tryGeocode_fst g (guess_address_variants r)
      rw [htg] at hfst
      simp only at hfst
      cases hg : (guess_address_variants r).find? (fun a => (g a).isSome) with
      | some a =>
        rw [hg] at hfst
        simp only [] at hfst
        have ha : (g a).isSome = true := by simpa using List.find?_some hg
        obtain ⟨c, hc⟩ := Option.isSome_iff_exists.mp ha
        rw [hc] at hfst
        simp only [Option.map_some'] at hfst
        rw [hfst]
        simp [hc]
      | none =>
        rw [hg] at hfst
        simp only [] at hfst
        rw [hfst]
        simp

/-- The geocoding network calls issued by one resolution: none on any cache
hit; otherwise one call per variant in order up to and including the first
success (all variants when none succeeds). -/
theorem resolveLatLon_calls (g : String → Option Coord) (cache : GeoCache)
    (r : Row) :
    (resolveLatLon g cache r).2 =
      if ((cacheFind cache r.url).isSome ||
          (guess_address_variants r).any (fun a => (cacheFind cache a).isSome)) then
        ([] : List String)
      else
        (guess_address_variants r).takeWhile (fun a => !(g a).isSome) ++
          ((guess_address_variants r).find? (fun a => (g a).isSome)).toList := by
  cases hurl : cacheFind cache r.url with
  | some c => simp [resolveLatLon, hurl]
  | none =>
    rw [resolveLatLon, hurl]
    rw [findCachedVariant_eq]
    cases hv : (guess_address_variants r).find?
        (fun a => (cacheFind cache a).isSome) with
    | some a =>
      have hpa := List.find?_some hv
      have hany : (guess_address_variants r).any
          (fun a => (cacheFind cache a).isSome) = true := by
        rw [List.any_eq_true]
        exact ⟨a, List.mem_of_find?_eq_some hv, hpa⟩
      obtain ⟨c, hc⟩ := Option.isSome_iff_exists.mp (by simpa using hpa)
      simp [hurl, hany, hc]
    | none =>
      have hany : ¬((guess_address_variants r).any
          (fun a => (cacheFind cache a).isSome) = true) := by
        rw [List.any_eq_true]
        rintro ⟨x, hx, hpx⟩
        exact absurd hpx (List.find?_eq_none.mp hv x hx)
      rcases htg : tryGeocode g (guess_address_variants r) with ⟨res, calls⟩
      have hsnd := tryGeocode_snd g (guess_address_variants r)
      rw [htg] at hsnd
      simp only at hsnd
      cases res with
      | none => simp [hurl, hany, hsnd]
      | some p =>
        rcases p with ⟨c, addr⟩
        simp [hurl, hany, hsnd]

/-- C2: coordinate resolution checks the GeoCache under the record's URL,
then under each address variant in the generated order, then queries the
geocoding service with each variant in order accepting the first non-empty
result (one network call per tried variant); if nothing resolves, the
record contributes no enriched row, and since every output (snapshot CSV,
new CSV, map) is a function of the enriched list, it appears in none of
the outputs. -/
theorem geocode_resolution_order (g : String → Option Coord)
    (cache : GeoCache) (r : Row) (env : EnrichEnv) (center : Coord)
    (st : EnrichState) (rest : List Row) :
    ((resolveLatLon g cache r).1.map Prod.fst = resolveCoordSpec g cache r) ∧
    ((resolveLatLon g cache r).2 =
      if ((cacheFind cache r.url).isSome ||
          (guess_address_variants r).any (fun a => (cacheFind cache a).isSome)) then
        ([] : List String)
      else
        (guess_address_variants r).takeWhile (fun a => !(g a).isSome) ++
          ((guess_address_variants r).find? (fun a => (g a).isSome)).toList) ∧
    (resolveCoordSpec env.geocode st.geoCache r = none →
      (enrichList env center st (r :: rest)).2.1 =
        (enrichList env center st rest).2.1) := by
  refine ⟨resolveLatLon_fst g cache r, resolveLatLon_calls g cache r,
    fun hnone => ?_⟩
  have h1 : (resolveLatLon env.geocode st.geoCache r).1 = none := by
    have hf := resolveLatLon_fst env.geocode st.geoCache r
    rw [hnone] at hf
    exact Option.map_eq_none'.mp hf
  rcases hres : resolveLatLon env.geocode st.geoCache r with ⟨res, calls⟩
  rw [hres] at h1
  simp only at h1
  subst h1
  have hone : enrichOne env center st r = (st, none, calls) := by
    rw [enrichOne, hres]
  rcases h2 : enrichList env center st rest with ⟨st2, out, calls2⟩
  simp [enrichList, hone, h2]

def gNone : String → Option Coord := fun _ => none

def envNone : EnrichEnv := ⟨gNone, fun _ => none, fun _ _ => 0, fun _ => ("k")⟩

def rowD : Row := ⟨"", "", "", "", "", "", "https://d", "", none, none, none⟩

def coordZero : Coord := ⟨0, 0⟩

theorem geocode_resolution_order_witness :
    (enrichList envNone coordZero ⟨[], []⟩ (rowD :: [])).2.1 =
      (enrichList envNone coordZero ⟨[], []⟩ ([] : List Row)).2.1 :=
  (geocode_resolution_order gNone [] rowD envNone coordZero ⟨[], []⟩ []).2.2
    (by decide)

/-- C4: on a fresh geocode success (at least one network call was made),
the resolved coordinate is stored in the returned — and persisted — cache
under both the record's URL and the variant that succeeded (the last call
issued); and re-resolving the same record against the updated cache
returns the same coordinate with zero further network calls (this also
holds after cache-hit resolutions). -/
theorem geocode_cache_write_idempotent (g : String → Option Coord)
    (cache : GeoCache) (r : Row) (c : Coord) (cache' : GeoCache)
    (calls : List String)
    (h : resolveLatLon g cache r = (some (c, cache'), calls)) :
    (calls ≠ [] →
      cacheFind cache' r.url = some c ∧
      ∃ a, calls.getLast? = some a ∧ g a = some c ∧
        cacheFind cache' a = some c) ∧
    resolveLatLon g cache' r = (some (c, cache'), []) := by
  rw [resolveLatLon] at h
  cases hurl : cacheFind cache r.url with
  | some c0 =>
    rw [hurl] at h
    simp only [Prod.mk.injEq, Option.some.injEq] at h
    obtain ⟨⟨hc, hcache⟩, hcalls⟩ := h
    subst hc
    subst hcache
    subst hcalls
    constructor
    · intro hne; exact absurd rfl hne
    · rw [resolveLatLon, hurl]
  | none =>
    rw [hurl] at h
    cases hv : findCachedVariant cache (guess_address_variants r) with
    | some c0 =>
      rw [hv] at h
      simp only [Prod.mk.injEq, Option.some.injEq] at h
      obtain ⟨⟨hc, hcache⟩, hcalls⟩ := h
      subst hc
      subst hcache
      subst hcalls
      constructor
      · intro hne; exact absurd rfl hne
      · rw [resolveLatLon, hurl, hv]
    | none =>
      rw [hv] at h
      rcases htg : tryGeocode g (guess_address_variants r) with ⟨res, calls0⟩
      rw [htg] at h
      cases res with
      | none => simp at h
      | some p =>
        rcases p with ⟨c0, addr⟩
        simp only [Prod.mk.injEq, Option.some.injEq] at h
        obtain ⟨⟨hc, hcache⟩, hcalls⟩ := h
        -- identify the successful variant from the geocode loop
        have hfst := tryGeocode_fst g (guess_address_variants r)
        rw [htg] at hfst
        simp only at hfst
        have hsnd := tryGeocode_snd g (guess_address_variants r)
        rw [htg] at hsnd
        simp only at hsnd
        cases hg : (guess_address_variants r).find? (fun a => (g a).isSome) with
        | none =>
          rw [hg] at hfst
          simp at hfst
        | some a =>
          rw [hg] at hfst
          simp only [] at hfst
          obtain ⟨cx, hcx, hpair⟩ := Option.map_eq_some'.mp hfst.symm
          have hcxc : cx = c0 := congrArg Prod.fst hpair
          have haddr : a = addr := congrArg Prod.snd hpair
          rw [hg] at hsnd
          have hga : g addr = some c := by rw [← haddr, hcx, hcxc, hc]
          have hcache' : cache' = (addr, c) :: (r.url, c) :: cache := by
            rw [← hcache, hc]
            rfl
          have hfind : cacheFind cache' r.url = some c := by
            rw [hcache']
            by_cases hb : (r.url == addr) = true
            · simp [cacheFind, List.lookup_cons, hb]
            · have hb' : (r.url == addr) = false := by simpa using hb
              simp [cacheFind, List.lookup_cons, hb']
          have hfinda : cacheFind cache' addr = some c := by
            rw [hcache']
            simp [cacheFind, List.lookup_cons]
          constructor
          · intro _
            refine ⟨hfind, addr, ?_, hga, hfinda⟩
            rw [← hcalls, hsnd, ← haddr]
            simp
          · rw [resolveLatLon, hfind]

def rowW4 : Row := ⟨"", "", "", "", "", "", "https://w", "", none, none, none⟩

def gW : String → Option Coord :=
  fun a => if a = ("Limburg, Nederland") then some ⟨51, 6⟩ else none

def coordW : Coord := ⟨51, 6⟩

def cacheW : GeoCache :=
  [(("Limburg, Nederland"), coordW), (("https://w"), coordW)]

theorem geocode_cache_write_idempotent_witness :
    (cacheFind cacheW rowW4.url = some coordW ∧
      ∃ a, (("Limburg, Nederland") :: ([] : List String)).getLast? = some a ∧
        gW a = some coordW ∧ cacheFind cacheW a = some coordW) ∧
    resolveLatLon gW cacheW rowW4 = (some (coordW, cacheW), []) :=
  ⟨(geocode_cache_write_idempotent gW [] rowW4 coordW cacheW
      (("Limburg, Nederland") :: []) (by decide)).1 (by decide),
   (geocode_cache_write_idempotent gW [] rowW4 coordW cacheW
      (("Limburg, Nederland") :: []) (by decide)).2⟩

/-! ### C5: snapshot diff -/

/-- C5: a missing previous snapshot file yields the empty URL set, and for
every enriched record, membership in the "new" output is exactly absence
of its URL from the previous snapshot's URL set. -/
theorem diff_new_urls_correct (prevFile : Option (List String))
    (enriched : List Row) (r : Row) :
    load_prev_urls none = [] ∧
    (r ∈ enriched →
      ((r.url ∈ load_prev_urls prevFile →
          r ∉ newRows (load_prev_urls prevFile) enriched) ∧
       (r.url ∉ load_prev_urls prevFile →
          r ∈ newRows (load_prev_urls prevFile) enriched))) := by
  refine ⟨rfl, fun hmem => ⟨fun hin hnew => ?_, fun hout => ?_⟩⟩
  · rw [newRows, List.mem_filter] at hnew
    exact of_decide_eq_true hnew.2 hin
  · rw [newRows, List.mem_filter]
    exact ⟨hmem, decide_eq_true hout⟩

def prevFileW : Option (List String) := some [("https://a"), ("geenurl")]

def rowA5 : Row := ⟨"", "", "", "", "", "", "https://a", "", none, none, none⟩

def rowB5 : Row := ⟨"", "", "", "", "", "", "https://b", "", none, none, none⟩

theorem diff_new_urls_correct_witness :
    load_prev_urls none = [] ∧
    rowA5 ∉ newRows (load_prev_urls prevFileW) [rowA5, rowB5] ∧
    rowB5 ∈ newRows (load_prev_urls prevFileW) [rowA5, rowB5] :=
  ⟨(diff_new_urls_correct prevFileW [rowA5, rowB5] rowA5).1,
   ((diff_new_urls_correct prevFileW [rowA5, rowB5] rowA5).2
      (by decide)).1 (by decide),
   ((diff_new_urls_correct prevFileW [rowA5, rowB5] rowB5).2
      (by decide)).2 (by decide)⟩

/-! ### C1: output invariant of the geo resolver -/

/-- Python's banker's rounding never exceeds the ceiling. -/
theorem bankersRound_le_ceil (q : ℚ) : bankersRound q ≤ ⌈q⌉ := by
  rw [bankersRound]
  split
  · rename_i h
    have hlt : (⌊q⌋ : ℚ) < q := by linarith
    have hceil : ⌊q⌋ < ⌈q⌉ := Int.lt_ceil.mpr hlt
    split <;> omega
  · rw [round_eq]
    have h1 : (⌊q + 1 / 2⌋ : ℚ) ≤ q + 1 / 2 := Int.floor_le _
    have h2 : q ≤ (⌈q⌉ : ℚ) := Int.le_ceil q
    by_contra hcon
    push_neg at hcon
    have h3 : ⌈q⌉ + 1 ≤ ⌊q + 1 / 2⌋ := Int.add_one_le_iff.mpr hcon
    have h4 : ((⌈q⌉ : ℚ) + 1) ≤ (⌊q + 1 / 2⌋ : ℚ) := by exact_mod_cast h3
    linarith

/-- A distance within the radius still is after rounding to one decimal. -/
theorem pyRound1_le_radius {d : ℚ} (h : d ≤ RADIUS_KM) :
    pyRound1 d ≤ RADIUS_KM := by
  rw [pyRound1, RADIUS_KM]
  rw [RADIUS_KM] at h
  have h10 : 10 * d ≤ (1000 : ℚ) := by linarith
  have hceil : ⌈10 * d⌉ ≤ (1000 : ℤ) := Int.ceil_le.mpr (by exact_mod_cast h10)
  have hbr : bankersRound (10 * d) ≤ 1000 :=
    le_trans (bankersRound_le_ceil _) hceil
  have hcast : (bankersRound (10 * d) : ℚ) ≤ 1000 := by exact_mod_cast hbr
  linarith

/-- Every row `enrichOne` emits was built by `enrichedRow` from a distance
that passed the radius filter. -/
theorem enrichOne_some (env : EnrichEnv) (center : Coord) (st : EnrichState)
    (r : Row) (st1 : EnrichState) (row' : Row) (calls : List String)
    (h : enrichOne env center st r = (st1, some row', calls)) :
    ∃ c m dist, ¬(RADIUS_KM < dist) ∧ row' = enrichedRow r c m dist := by
  rw [enrichOne] at h
  rcases hres : resolveLatLon env.geocode st.geoCache r with ⟨res, calls0⟩
  rw [hres] at h
  cases res with
  | none =>
    have := congrArg (fun t => t.2.1) h
    simp at this
  | some p =>
    rcases p with ⟨c, gc'⟩
    simp only [] at h
    by_cases hd : RADIUS_KM < env.dist center c
    · rw [if_pos hd] at h
      have := congrArg (fun t => t.2.1) h
      simp at this
    · rw [if_neg hd] at h
      cases hl : List.lookup (env.revKey c) st.revCache with
      | some m =>
        rw [hl] at h
        have hrow := congrArg (fun t => t.2.1) h
        simp only [] at hrow
        exact ⟨c, m, env.dist center c, hd, (Option.some.inj hrow).symm⟩
      | none =>
        rw [hl] at h
        cases hrev : env.reverse c with
        | some addr =>
          rw [hrev] at h
          have hrow := congrArg (fun t => t.2.1) h
          simp only [] at hrow
          exact ⟨c, municipalityOf addr, env.dist center c, hd,
            (Option.some.inj hrow).symm⟩
        | none =>
          rw [hrev] at h
          have hrow := congrArg (fun t => t.2.1) h
          simp only [] at hrow
          exact ⟨c, "", env.dist center c, hd, (Option.some.inj hrow).symm⟩

/-- Invariant of the enrichment loop: every emitted row has coordinates and
an in-radius rounded distance. -/
theorem enrichList_mem (env : EnrichEnv) (center : Coord) :
    ∀ (rows : List Row) (st : EnrichState) (r' : Row),
      r' ∈ (enrichList env center st rows).2.1 →
      r'.lat.isSome = true ∧ r'.lon.isSome = true ∧
        ∃ d, r'.distance_km = some d ∧ d ≤ RADIUS_KM := by
  intro rows
  induction rows with
  | nil =>
    intro st r' h
    simp [enrichList] at h
  | cons r rest ih =>
    intro st r' h
    rcases h1 : enrichOne env center st r with ⟨st1, orow, calls⟩
    rcases h2 : enrichList env center st1 rest with ⟨st2, out, calls2⟩
    rw [enrichList, h1] at h
    simp only [] at h
    rw [h2] at h
    simp only [] at h
    rw [List.mem_append] at h
    cases h with
    | inl hin =>
      cases orow with
      | none => simp at hin
      | some row0 =>
        have hr : r' = row0 := by simpa using hin
        subst hr
        obtain ⟨c, m, dist, hd, he⟩ :=
          enrichOne_some env center st r st1 r' calls h1
        rw [he]
        refine ⟨rfl, rfl, pyRound1 dist, rfl, ?_⟩
        exact pyRound1_le_radius (le_of_not_lt hd)
    | inr hout =>
      apply ih st1 r'
      rw [h2]
      exact hout

/-- C1: every record in the final enriched output of
`geocode_and_enrich_rows` has non-null `lat` and `lon` and a `distance_km`
of at most `RADIUS_KM` (out-of-radius records were excluded before
enrichment). -/
theorem enrich_output_radius_invariant (env : EnrichEnv) (st : EnrichState)
    (rows : List Row) (r' : Row)
    (h : r' ∈ (geocode_and_enrich_rows env st rows).2.1) :
    r'.lat.isSome = true ∧ r'.lon.isSome = true ∧
      ∃ d, r'.distance_km = some d ∧ d ≤ RADIUS_KM :=
  enrichList_mem env (get_center_latlon env.geocode) rows st r' h

def envW : EnrichEnv :=
  ⟨fun _ => some ⟨50, 5⟩,
   fun _ => some [(("municipality"), ("Testgemeente"))],
   fun _ _ => 0,
   fun _ => ("k")⟩

def stW : EnrichState := ⟨[], []⟩

def rowT : Row := ⟨"", "", "T", "", "", "", "https://t", "", none, none, none⟩

def rowTout : Row :=
  ⟨"", "", "T", "", "", "", "https://t", "Testgemeente", some 50, some 5,
   some (pyRound1 0)⟩

theorem enrich_output_radius_invariant_witness :
    rowTout.lat.isSome = true ∧ rowTout.lon.isSome = true ∧
      ∃ d, rowTout.distance_km = some d ∧ d ≤ RADIUS_KM :=
  enrich_output_radius_invariant envW stW [rowT] rowTout (by
    have hout : (geocode_and_enrich_rows envW stW [rowT]).2.1 = [rowTout] := rfl
    rw [hout]
    exact List.mem_singleton.mpr rfl)
